import Mathlib

/-!
Verification development for `ansible_parallel.py`.

The Python source is shallowly embedded: pure functions become Lean
functions over `List Char` / `String`, the asyncio machinery becomes
explicit event lists, a merge relation for channel interleavings, and a
step relation for the semaphore discipline.  Python `int` is `Int`
(unbounded, signed — a child process killed by a signal has a negative
`returncode`), Python exceptions are `Option` / `Except`.
-/

/-- Character class stripped by Python `str.strip()` (the ASCII whitespace
actually occurring in the program's line-oriented output). -/
def isPyWS (c : Char) : Bool :=
  c == ' ' || c == '\t' || c == '\n' || c == '\r'

/-- Python `chunk.strip()`: drop leading and trailing whitespace characters. -/
def trimChars (l : List Char) : List Char :=
  ((l.dropWhile isPyWS).reverse.dropWhile isPyWS).reverse

/-- Model of `text.split("\n")` on a character list.  Python `str.split` with an
explicit separator keeps empty parts, so the result is always non-empty. -/
def splitNL : List Char → List (List Char)
  | [] => [[]]
  | c :: rest =>
    if c = '\n' then [] :: splitNL rest
    else
      match splitNL rest with
      | [] => [[c]]
      | l :: ls => (c :: l) :: ls

/-- Does the second list start with the first one? -/
def hasPrefixC : List Char → List Char → Bool
  | [], _ => true
  | _ :: _, [] => false
  | a :: as, b :: bs => a == b && hasPrefixC as bs

/-- Python substring test (`needle in hay`), hay first. -/
def containsC : List Char → List Char → Bool
  | [], needle => needle.isEmpty
  | h :: rest, needle => hasPrefixC needle (h :: rest) || containsC rest needle

/-- Python `sub in s`. -/
def pyContains (s sub : String) : Bool := containsC s.data sub.data

/-- Python `s.startswith(p)`. -/
def pyStartsWith (s p : String) : Bool := hasPrefixC p.data s.data

/-- The tuples put on the `asyncio.Queue`: `(msgtype, playbook, msg)`
(source lines 81, 100, 110-114). -/
abbrev Event := String × String × String

/-- Source lines 73-77: the tail of `prepare_chunk`, reached when no
earlier rule returned. -/
def tailRules (playbook : String) (chunk : String) : Event :=
  if pyStartsWith chunk "TASK" then ("TASK", playbook, chunk)
  else if pyContains chunk "ERROR!" then ("ERROR", playbook, chunk)
  else ("MSG", playbook, chunk)

/-- Classifier `prepare_chunk` (source lines 47-77): classify one chunk of
`ansible-playbook` output.  `lines` is `chunk.strip().split("\n")`; the
five keyword rules only run when it has at least two entries, and the
`"PLAY RECAP" in chunk` test is the first of them; otherwise control falls
through to the `TASK` / `"ERROR!"` / `MSG` tail of the function. -/
def prepare_chunk (playbook : String) (chunk : String) : Event :=
  match splitNL (trimChars chunk.data) with
  | _ :: line1 :: _ =>
    if pyContains chunk "PLAY RECAP" then ("RECAP", playbook, chunk)
    else if containsC line1 ("ok:".data) then ("OK", playbook, chunk)
    else if containsC line1 ("changed:".data) then ("CHANGED", playbook, chunk)
    else if containsC line1 ("failed:".data) || containsC line1 ("fatal:".data) then
      ("ERROR", playbook, chunk)
    else if containsC line1 ("unreachable:".data) then ("UNREACHABLE", playbook, chunk)
    else tailRules playbook chunk
  | _ => tailRules playbook chunk

/-- First line of a raw (untrimmed) text block: everything before the
first newline. -/
def rawFirstLine (s : String) : List Char := s.data.takeWhile (fun c => c != '\n')

/-- Rules 6-8 as the claim words them: "a chunk whose first line starts
with TASK", else a chunk containing `ERROR!`, else MSG. -/
def claimTailRules (playbook : String) (chunk : String) : Event :=
  if hasPrefixC ("TASK".data) (rawFirstLine chunk) then ("TASK", playbook, chunk)
  else if pyContains chunk "ERROR!" then ("ERROR", playbook, chunk)
  else ("MSG", playbook, chunk)

/-- The classifier cascade exactly as the claim words it, for the
refinement comparison with `prepare_chunk`: keyword rules on the second
trimmed line when there are at least two lines, then "first line starts
with TASK", then "chunk contains ERROR!", else MSG.  (No RECAP rule: the
claim quantifies over chunks not classified RECAP.) -/
def claimCascade (playbook : String) (chunk : String) : Event :=
  match splitNL (trimChars chunk.data) with
  | _ :: line1 :: _ =>
    if containsC line1 ("ok:".data) then ("OK", playbook, chunk)
    else if containsC line1 ("changed:".data) then ("CHANGED", playbook, chunk)
    else if containsC line1 ("failed:".data) || containsC line1 ("fatal:".data) then
      ("ERROR", playbook, chunk)
    else if containsC line1 ("unreachable:".data) then ("UNREACHABLE", playbook, chunk)
    else claimTailRules playbook chunk
  | _ => claimTailRules playbook chunk

theorem hasPrefixC_takeWhile_ne_nl (needle hay : List Char) (h : '\n' ∉ needle) :
    hasPrefixC needle (hay.takeWhile (fun c => c != '\n')) = hasPrefixC needle hay := by
  induction needle generalizing hay with
  | nil => simp [hasPrefixC]
  | cons a as ih =>
    cases hay with
    | nil => simp
    | cons b bs =>
      by_cases hb : b = '\n'
      · subst hb
        have ha : (a == '\n') = false := by
          simp only [beq_eq_false_iff_ne, ne_eq]
          exact fun e => h (e ▸ List.mem_cons_self a as)
        simp [List.takeWhile_cons, hasPrefixC, ha]
      · have hb' : (b != '\n') = true := by simp [hb]
        simp only [List.takeWhile_cons, hb', if_true, hasPrefixC]
        rw [ih bs (fun hm => h (List.mem_cons_of_mem a hm))]

/-- The code's rule 6 tests `chunk.startswith("TASK")`; since the needle
contains no newline this is the same as testing the raw first line. -/
theorem firstLine_TASK_eq (chunk : String) :
    hasPrefixC ("TASK".data) (rawFirstLine chunk) = pyStartsWith chunk "TASK" := by
  unfold rawFirstLine pyStartsWith
  exact hasPrefixC_takeWhile_ne_nl _ _ (by decide)

theorem claimTailRules_eq (pb chunk : String) :
    claimTailRules pb chunk = tailRules pb chunk := by
  unfold claimTailRules tailRules
  rw [firstLine_TASK_eq]

/-- C4 (amended): the `PLAY RECAP` test is guarded by `len(lines) >= 2`;
when that guard holds and the raw chunk contains the marker, the
classifier answers RECAP, before any keyword rule is tried. -/
theorem C4_recap_guard_amended (pb chunk : String)
    (h2 : 2 ≤ (splitNL (trimChars chunk.data)).length)
    (hrec : pyContains chunk "PLAY RECAP" = true) :
    prepare_chunk pb chunk = ("RECAP", pb, chunk) := by
  simp only [prepare_chunk]
  rcases hsp : splitNL (trimChars chunk.data) with _ | ⟨a, _ | ⟨b, t⟩⟩
  · rw [hsp] at h2; simp at h2
  · rw [hsp] at h2; simp at h2
  · simp [hrec]

/-- C4 counterexample: the single-line chunk `PLAY RECAP` contains the
marker but its trimmed line list has one entry, so the guard fails and the
classifier falls through to MSG, not RECAP. -/
theorem C4_recap_single_line_cex :
    pyContains "PLAY RECAP" "PLAY RECAP" = true ∧
    prepare_chunk "site.yml" "PLAY RECAP" = ("MSG", "site.yml", "PLAY RECAP") := by
  constructor
  · decide
  · decide

theorem C4_recap_guard_witness :
    2 ≤ (splitNL (trimChars ("PLAY RECAP *\nok: x").data)).length ∧
    prepare_chunk "p" "PLAY RECAP *\nok: x" = ("RECAP", "p", "PLAY RECAP *\nok: x") :=
  ⟨by decide, C4_recap_guard_amended "p" "PLAY RECAP *\nok: x" (by decide) (by decide)⟩

/-- C5: away from RECAP the classifier is exactly the cascade the claim
describes (`claimCascade`, written from the claim's words), and the two
single-line examples classify as the claim states. -/
theorem C5_rule_order :
    (∀ pb chunk, (prepare_chunk pb chunk).1 ≠ "RECAP" →
      prepare_chunk pb chunk = claimCascade pb chunk) ∧
    prepare_chunk "p" "TASK [x]" = ("TASK", "p", "TASK [x]") ∧
    prepare_chunk "p" "random text" = ("MSG", "p", "random text") := by
  refine ⟨?_, by decide, by decide⟩
  intro pb chunk hne
  unfold prepare_chunk at hne
  unfold prepare_chunk claimCascade
  rcases hsp : splitNL (trimChars chunk.data) with _ | ⟨a, _ | ⟨b, t⟩⟩ <;>
    simp only [claimTailRules_eq]
  rw [hsp] at hne
  by_cases hrecap : pyContains chunk "PLAY RECAP" = true
  · exfalso
    apply hne
    simp [hrecap]
  · simp only [Bool.not_eq_true] at hrecap
    simp [hrecap]

theorem C5_rule_order_witness :
    prepare_chunk "p" "x\nchanged: [h]" = claimCascade "p" "x\nchanged: [h]" :=
  C5_rule_order.1 "p" "x\nchanged: [h]" (by decide)

/-- Python slicing `s[:k]` for an arbitrary (possibly negative) `k`: a
non-negative bound takes the first `k` characters, a negative bound counts
from the end, clipped at zero. -/
def pySliceTo (s : String) (k : Int) : String :=
  if 0 ≤ k then ⟨s.data.take k.toNat⟩
  else ⟨s.data.take (s.data.length - (-k).toNat)⟩

/-- Display helper `truncate` (source lines 124-127).  `max_width` is a Python int: the
renderer passes `columns - longest_name - 4`, which can be zero or
negative on a narrow terminal, so it is modelled as `Int`. -/
def truncate (string : String) (max_width : Int) : String :=
  if (string.length : Int) ≤ max_width then string
  else pySliceTo string (max_width - 1) ++ "…"


/-- C7 (amended): for available widths of at least one column, `truncate`
of a too-long string has length exactly the width, is the first
`width - 1` characters of the input followed by one ellipsis character,
and a string that fits is returned unchanged.  (At width 0 or below the
length clause fails, see the counterexample.) -/
theorem C7_truncate_amended (s : String) (w : Int) (hw : 1 ≤ w) :
    ((w < (s.length : Int)) →
      ((truncate s w).length : Int) = w ∧
      (truncate s w).data = s.data.take (w.toNat - 1) ++ ['…']) ∧
    ((s.length : Int) ≤ w → truncate s w = s) := by
  constructor
  · intro hlong
    have hnle : ¬ ((s.length : Int) ≤ w) := by omega
    have h0 : 0 ≤ w - 1 := by omega
    have htn : (w - 1).toNat = w.toNat - 1 := by omega
    have hd : (truncate s w).data = s.data.take (w.toNat - 1) ++ ['…'] := by
      unfold truncate pySliceTo
      rw [if_neg hnle, if_pos h0, htn]
      rfl
    refine ⟨?_, hd⟩
    have hlen : (truncate s w).length = (truncate s w).data.length := rfl
    have hsl : s.length = s.data.length := rfl
    have := congrArg List.length hd
    rw [List.length_append, List.length_take] at this
    simp only [List.length_singleton] at this
    omega
  · intro hle
    unfold truncate
    rw [if_pos hle]

/-- C7 counterexample: at available width 0 (claimed to be covered by
"every available width") the result of truncating a longer string has
length 2, not 0: Python's `string[: -1]` drops one character and the
ellipsis is appended. -/
theorem C7_truncate_width_zero_cex :
    truncate "ab" 0 = "a…" ∧ (truncate "ab" 0).length ≠ 0 := by
  constructor
  · decide
  · decide

theorem C7_truncate_amended_witness :
    ((truncate "hello" 3).length : Int) = 3 ∧
    (truncate "hello" 3).data = "hello".data.take ((3 : Int).toNat - 1) ++ ['…'] :=
  (C7_truncate_amended "hello" 3 (by decide)).1 (by decide)

/-- The `readline` loop of `run_playbook` (source lines 93-106).  The
input list holds the successive strings returned by
`process.stdout.readline()` (each normally ending in a newline); the loop
stops at the first empty string, which is how the model also treats the
end of the list.  `task` is the pending buffer; the result is the list of
chunks handed to `prepare_chunk`, in order: on a bare newline the buffer
plus that newline, at end of stream a non-empty buffer without a trailing
newline. -/
def readChunks : List String → List String → List String
  | [], task => if task = [] then [] else [String.join task]
  | line :: rest, task =>
    if line = "" then (if task = [] then [] else [String.join task])
    else if line = "\n" then (String.join task ++ "\n") :: readChunks rest []
    else readChunks rest (task ++ [line])

/-- Payload of the DONE event (source lines 109-114); `if
process.returncode:` is Python int truthiness, i.e. `code ≠ 0`. -/
def donePayload (code : Int) : String :=
  if code = 0 then "Done." else "Exited with error code: " ++ toString code

/-- The classified chunk events one job emits for its stream. -/
def chunkEvents (pb : String) (lines : List String) : List Event :=
  (readChunks lines []).map (prepare_chunk pb)

/-- All events `run_playbook` puts on the shared queue for playbook `pb`
when the spawn succeeds, the stream yields `lines` and the process exits
with `code` (source lines 80-115): one START with empty payload first
(line 81, before `create_subprocess_exec`), then the classified chunks,
then exactly one DONE (lines 109-114). -/
def run_playbook_events (pb : String) (lines : List String) (code : Int) : List Event :=
  ("START", pb, "") :: chunkEvents pb lines ++ [("DONE", pb, donePayload code)]


theorem readChunks_boundary (buf : List String) (rest task : List String)
    (hnl : "\n" ∉ buf) (hne : "" ∉ buf) :
    readChunks (buf ++ "\n" :: rest) task =
      (String.join (task ++ buf) ++ "\n") :: readChunks rest [] := by
  induction buf generalizing task with
  | nil => simp [readChunks]
  | cons l buf ih =>
    have hl1 : ¬ (l = "\n") := fun h => hnl (h ▸ List.mem_cons_self l buf)
    have hl2 : ¬ (l = "") := fun h => hne (h ▸ List.mem_cons_self l buf)
    simp only [List.cons_append, readChunks, if_neg hl2, if_neg hl1, List.append_eq]
    rw [ih (task ++ [l]) (fun h => hnl (List.mem_cons_of_mem l h))
        (fun h => hne (List.mem_cons_of_mem l h))]
    rw [List.append_assoc]
    rfl

theorem readChunks_flush (buf task : List String)
    (hnl : "\n" ∉ buf) (hne : "" ∉ buf) :
    readChunks buf task =
      if task ++ buf = [] then [] else [String.join (task ++ buf)] := by
  induction buf generalizing task with
  | nil => simp [readChunks]
  | cons l buf ih =>
    have hl1 : ¬ (l = "\n") := fun h => hnl (h ▸ List.mem_cons_self l buf)
    have hl2 : ¬ (l = "") := fun h => hne (h ▸ List.mem_cons_self l buf)
    simp only [readChunks, if_neg hl2, if_neg hl1, List.append_eq]
    rw [ih (task ++ [l]) (fun h => hnl (List.mem_cons_of_mem l h))
        (fun h => hne (List.mem_cons_of_mem l h))]
    have h1 : (task ++ [l]) ++ buf ≠ [] := by simp
    have h2 : task ++ l :: buf ≠ [] := by simp
    rw [if_neg h1, if_neg h2, List.append_assoc]
    rfl

/-- C6: the chunk boundary rule of the reader loop.  For a buffer of
ordinary lines (no bare newline, no end-of-stream marker): reading the
buffer followed by a blank line emits the joined buffer plus that blank
line as one chunk and restarts with an empty buffer; at end of stream a
non-empty buffer is emitted joined, with no trailing blank line; an empty
stream emits nothing; and the emitted chunks are each classified by
`prepare_chunk`. -/
theorem C6_chunk_boundaries (buf rest : List String)
    (hnl : "\n" ∉ buf) (hne : "" ∉ buf) :
    readChunks (buf ++ "\n" :: rest) [] =
      (String.join buf ++ "\n") :: readChunks rest [] ∧
    (buf ≠ [] → readChunks buf [] = [String.join buf]) ∧
    readChunks ([] : List String) [] = ([] : List String) ∧
    (∀ pb lines, chunkEvents pb lines = (readChunks lines []).map (prepare_chunk pb)) := by
  refine ⟨?_, ?_, rfl, fun pb lines => rfl⟩
  · rw [readChunks_boundary buf rest [] hnl hne]
    rfl
  · intro hb
    rw [readChunks_flush buf [] hnl hne]
    simp [hb]

theorem C6_chunk_boundaries_witness :
    readChunks (["TASK [x]\n"] ++ "\n" :: ["y\n"]) [] =
      (String.join ["TASK [x]\n"] ++ "\n") :: readChunks ["y\n"] [] :=
  (C6_chunk_boundaries ["TASK [x]\n"] ["y\n"] (by decide) (by decide)).1

/-- Pointwise update of a job-indexed family of pending event lists. -/
def updStreams (f : String → List Event) (j : String) (v : List Event) :
    String → List Event :=
  fun x => if x = j then v else f x

/-- Relation stating that `ws` is an interleaving of the per-job event sequences `streams`: the
shared `asyncio.Queue` receives, one `put` at a time, the next pending
event of some job, until every job's sequence is exhausted.  Each producer
awaits its own `put`s in program order, so an execution of the engine
yields exactly such an interleaving on the FIFO channel. -/
inductive Merge : (String → List Event) → List Event → Prop
  | nil (streams) : (∀ j, streams j = []) → Merge streams []
  | cons (streams) (j : String) (e : Event) (rest : List Event) (ws : List Event) :
      streams j = e :: rest → Merge (updStreams streams j rest) ws →
      Merge streams (e :: ws)

theorem updStreams_tags (streams : String → List Event) (j0 : String)
    (e : Event) (rest : List Event)
    (h : streams j0 = e :: rest)
    (htags : ∀ j' e', e' ∈ streams j' → e'.2.1 = j') :
    ∀ j' e', e' ∈ updStreams streams j0 rest j' → e'.2.1 = j' := by
  intro j' e' he'
  unfold updStreams at he'
  by_cases hj : j' = j0
  · subst hj
    rw [if_pos rfl] at he'
    exact htags j' e' (h ▸ List.mem_cons_of_mem e he')
  · rw [if_neg hj] at he'
    exact htags j' e' he'

/-- Projecting an interleaving onto one job recovers that job's own event
sequence, provided every event names its own job (which the producers
guarantee: every tuple they put carries their `playbook`). -/
theorem merge_filter (streams : String → List Event) (ws : List Event)
    (hm : Merge streams ws) :
    (∀ j' e, e ∈ streams j' → e.2.1 = j') →
    ∀ j, ws.filter (fun e => e.2.1 == j) = streams j := by
  induction hm with
  | nil streams h =>
    intro _ j
    simp [h j]
  | cons streams j0 e rest ws h _ ih =>
    intro htags j
    have he : e.2.1 = j0 := htags j0 e (h ▸ List.mem_cons_self e rest)
    have ih' := ih (updStreams_tags streams j0 e rest h htags)
    by_cases hj : j = j0
    · subst hj
      rw [List.filter_cons, if_pos (by simp [he])]
      have := ih' j
      rw [show updStreams streams j rest j = rest from if_pos rfl] at this
      rw [this, h]
    · rw [List.filter_cons, if_neg (by simp [he, hj]; exact fun hh => hj hh.symm)]
      have := ih' j
      rw [show updStreams streams j0 rest j = streams j from if_neg hj] at this
      rw [this]

/-- Every event of every per-job sequence appears in the interleaving:
the merge only ends when all sequences are drained. -/
theorem merge_mem (streams : String → List Event) (ws : List Event)
    (hm : Merge streams ws) :
    ∀ j e, e ∈ streams j → e ∈ ws := by
  induction hm with
  | nil streams h =>
    intro j e he
    rw [h j] at he
    exact absurd he (List.not_mem_nil e)
  | cons streams j0 e0 rest ws h _ ih =>
    intro j e he
    by_cases hj : j = j0
    · subst hj
      rw [h] at he
      rcases List.mem_cons.mp he with rfl | he'
      · exact List.mem_cons_self _ _
      · exact List.mem_cons_of_mem _
          (ih j e (by rw [show updStreams streams j rest j = rest from if_pos rfl]; exact he'))
    · exact List.mem_cons_of_mem _
        (ih j e (by rw [show updStreams streams j0 rest j = streams j from if_neg hj]; exact he))

/-- Conversely, every event of the interleaving comes from the sequence of
the job it names. -/
theorem merge_mem_rev (streams : String → List Event) (ws : List Event)
    (hm : Merge streams ws)
    (htags : ∀ j' e, e ∈ streams j' → e.2.1 = j') :
    ∀ e, e ∈ ws → e ∈ streams e.2.1 := by
  induction hm with
  | nil _ _ =>
    intro e he
    exact absurd he (List.not_mem_nil e)
  | cons streams j0 e0 rest ws h _ ih =>
    intro e he
    rcases List.mem_cons.mp he with rfl | he'
    · rw [htags j0 e (h ▸ List.mem_cons_self e rest), h]
      exact List.mem_cons_self _ _
    · have := ih (updStreams_tags streams j0 e0 rest h htags) e he'
      unfold updStreams at this
      by_cases hj : e.2.1 = j0
      · rw [if_pos hj] at this
        rw [hj, h]
        exact List.mem_cons_of_mem _ this
      · rw [if_neg hj] at this
        exact this

/-- The classifier tags the event with the given playbook and never
produces the reader's own START or DONE kinds. -/
theorem prepare_chunk_kind (pb chunk : String) :
    (prepare_chunk pb chunk).2.1 = pb ∧
    (prepare_chunk pb chunk).1 ≠ "START" ∧ (prepare_chunk pb chunk).1 ≠ "DONE" := by
  unfold prepare_chunk tailRules
  split <;> split_ifs <;> exact ⟨rfl, by simp, by simp⟩

theorem run_playbook_events_tags (pb : String) (lines : List String) (code : Int) :
    ∀ e ∈ run_playbook_events pb lines code, e.2.1 = pb := by
  intro e he
  unfold run_playbook_events chunkEvents at he
  rcases List.mem_cons.mp he with rfl | he'
  · rfl
  · rcases List.mem_append.mp he' with hc | hd
    · rcases List.mem_map.mp hc with ⟨c, _, rfl⟩
      exact (prepare_chunk_kind pb c).1
    · rcases List.mem_singleton.mp hd with rfl
      rfl

/-- C2: in any interleaving of the producers' sequences on the shared
queue, the projection onto a job whose process spawned successfully is
exactly one START with empty payload, then the classified chunk events
(none of which is a START or DONE), then exactly one DONE whose payload is
`Done.` on exit code 0 and an error message naming the code otherwise. -/
theorem C2_per_job_event_order
    (streams : String → List Event) (ws : List Event)
    (j : String) (lines : List String) (code : Int)
    (hm : Merge streams ws)
    (htags : ∀ j' e, e ∈ streams j' → e.2.1 = j')
    (hj : streams j = run_playbook_events j lines code) :
    ws.filter (fun e => e.2.1 == j) =
      ("START", j, "") :: chunkEvents j lines ++ [("DONE", j, donePayload code)] ∧
    (∀ e ∈ chunkEvents j lines, e.1 ≠ "START" ∧ e.1 ≠ "DONE") ∧
    donePayload code =
      (if code = 0 then "Done." else "Exited with error code: " ++ toString code) := by
  refine ⟨?_, ?_, rfl⟩
  · rw [merge_filter streams ws hm htags j, hj]
    rfl
  · intro e he
    rcases List.mem_map.mp he with ⟨c, _, rfl⟩
    exact ⟨(prepare_chunk_kind j c).2.1, (prepare_chunk_kind j c).2.2⟩

/-- Two concrete jobs for the C2 witness interleaving. -/
def c2streams : String → List Event := fun j =>
  if j = "a" then run_playbook_events "a" ["ok\n"] 0
  else if j = "b" then run_playbook_events "b" [] 2
  else []

/-- A concrete interleaving of the two jobs' sequences: job b's events
arrive strictly between job a's. -/
def c2ws : List Event :=
  [("START", "a", ""), ("START", "b", ""), ("DONE", "b", donePayload 2),
   ("MSG", "a", "ok\n"), ("DONE", "a", donePayload 0)]

theorem c2merge : Merge c2streams c2ws := by
  refine Merge.cons _ "a" ("START", "a", "")
    [("MSG", "a", "ok\n"), ("DONE", "a", donePayload 0)] _ (by decide) ?_
  refine Merge.cons _ "b" ("START", "b", "") [("DONE", "b", donePayload 2)] _ (by decide) ?_
  refine Merge.cons _ "b" ("DONE", "b", donePayload 2) [] _ (by decide) ?_
  refine Merge.cons _ "a" ("MSG", "a", "ok\n") [("DONE", "a", donePayload 0)] _ (by decide) ?_
  refine Merge.cons _ "a" ("DONE", "a", donePayload 0) [] _ (by decide) ?_
  refine Merge.nil _ ?_
  intro jj
  by_cases h1 : jj = "a" <;> by_cases h2 : jj = "b" <;>
    simp [updStreams, c2streams, h1, h2]

theorem c2tags : ∀ j' e, e ∈ c2streams j' → e.2.1 = j' := by
  intro j' e he
  unfold c2streams at he
  by_cases h1 : j' = "a"
  · subst h1
    rw [if_pos rfl] at he
    exact run_playbook_events_tags "a" ["ok\n"] 0 e he
  · rw [if_neg h1] at he
    by_cases h2 : j' = "b"
    · subst h2
      rw [if_pos rfl] at he
      exact run_playbook_events_tags "b" [] 2 e he
    · rw [if_neg h2] at he
      exact absurd he (List.not_mem_nil e)

theorem C2_per_job_event_order_witness :
    c2ws.filter (fun e => e.2.1 == "a") =
      ("START", "a", "") :: chunkEvents "a" ["ok\n"] ++ [("DONE", "a", donePayload 0)] :=
  (C2_per_job_event_order c2streams c2ws "a" ["ok\n"] 0 c2merge c2tags (by decide)).1

/-- Default semaphore size:
`int(os.environ.get("ANSIBLE_PARALLEL_MAX_PLAYBOOKS", 5))`
(source lines 224-226). -/
def defaultMaxPlaybooks : Nat := 5

/-- State of the concurrency gate.  `permits` counts the free permits of
the `asyncio.Semaphore`; `running` lists the jobs currently holding a
permit — `playbook_wrapper` (source 197-199) acquires before calling
`run_playbook`, whose first action is to put START and whose last queue
action before returning is to put DONE, and the `async with` releases on
return; so holding a permit is exactly being between START and DONE. -/
structure GateState where
  permits : Nat
  running : List String
  finished : List String

/-- One scheduler transition of the gate: a not-yet-run job may enter
only when a permit is free (`Semaphore.acquire` suspends otherwise), and
a running job's completion returns its permit (`Semaphore.release`). -/
inductive GateStep : GateState → GateState → Prop
  | acquire (j : String) (s : GateState) :
      j ∉ s.running → j ∉ s.finished → 0 < s.permits →
      GateStep s (GateState.mk (s.permits - 1) (j :: s.running) s.finished)
  | release (j : String) (s : GateState) :
      j ∈ s.running →
      GateStep s (GateState.mk (s.permits + 1) (s.running.erase j) (j :: s.finished))

/-- States reachable from the initial state: `K` free permits, nothing
running (source line 224: the semaphore is created with value `K`). -/
inductive GateReach (K : Nat) : GateState → Prop
  | init : GateReach K (GateState.mk K [] [])
  | step (s s' : GateState) : GateReach K s → GateStep s s' → GateReach K s'

theorem gate_invariant (K : Nat) (s : GateState) (h : GateReach K s) :
    s.permits + s.running.length = K := by
  induction h with
  | init => simp
  | step s s' _ hs ih =>
    cases hs with
    | acquire j s hj hf hp =>
      show s.permits - 1 + (j :: s.running).length = K
      simp only [List.length_cons]
      omega
    | release j s hj =>
      show s.permits + 1 + (s.running.erase j).length = K
      rw [List.length_erase_of_mem hj]
      have := List.length_pos_of_mem hj
      omega

/-- Outcome of `run_playbook` including spawn failure: `spawn = none`
models `create_subprocess_exec` (source line 82) raising, e.g. the
executable missing or permission denied; the START event (line 81) was
already put on the queue when that happens.  On success the second
component is the exit code returned at line 115 (`process.returncode`, an
`Int`: negative when the child is killed by a signal). -/
def run_playbook_result (pb : String) (spawn : Option (List String × Int)) :
    List Event × Except String Int :=
  match spawn with
  | none => ([("START", pb, "")], Except.error "spawn failure")
  | some (lines, code) => (run_playbook_events pb lines code, Except.ok code)

/-- Semaphore actions a wrapper performs. -/
inductive SemAction
  | acq (pb : String)
  | rel (pb : String)
deriving DecidableEq

/-- Producer task `playbook_wrapper` (source 197-199): `async with semaphore` acquires
a permit, runs `run_playbook`, and releases the permit on every exit
path — also when `run_playbook` raises on spawn failure. -/
def playbook_wrapper_sem (pb : String) (spawn : Option (List String × Int)) :
    List SemAction × Except String Int :=
  ([SemAction.acq pb, SemAction.rel pb], (run_playbook_result pb spawn).2)

/-- Model of `asyncio.gather(*tasks)` with the default `return_exceptions=False`:
all values if no task raises, otherwise the raised exception propagates
to the awaiter and no result list is produced. -/
def gatherE : List (Except String Int) → Except String (List Int)
  | [] => Except.ok []
  | Except.error e :: _ => Except.error e
  | Except.ok v :: rest =>
    match gatherE rest with
    | Except.error e => Except.error e
    | Except.ok vs => Except.ok (v :: vs)

/-- The engine part of `amain` (source 229-240): one wrapper task per
playbook, `results = await asyncio.gather(*playbook_tasks)`, and
`return sum(results)`.  Each playbook is paired with its spawn outcome. -/
def amain_result (jobs : List (String × Option (List String × Int))) :
    Except String Int :=
  match gatherE (jobs.map fun j => (playbook_wrapper_sem j.1 j.2).2) with
  | Except.error e => Except.error e
  | Except.ok results => Except.ok results.sum

/-- Exit codes of the jobs whose spawn succeeds, in order. -/
def jobCodes (jobs : List (String × Option (List String × Int))) : List Int :=
  jobs.filterMap fun j => j.2.map Prod.snd

theorem gatherE_all_ok (jobs : List (String × Option (List String × Int)))
    (h : ∀ j ∈ jobs, j.2.isSome) :
    gatherE (jobs.map fun j => (playbook_wrapper_sem j.1 j.2).2) =
      Except.ok (jobCodes jobs) := by
  induction jobs with
  | nil => rfl
  | cons j rest ih =>
    rcases j with ⟨pb, spawn⟩
    have hj := h (pb, spawn) (List.mem_cons_self _ _)
    rcases spawn with _ | ⟨lines, code⟩
    · exact absurd hj (by simp)
    · simp only [List.map_cons]
      show gatherE (Except.ok code :: _) = _
      unfold gatherE
      rw [ih (fun x hx => h x (List.mem_cons_of_mem _ hx))]
      rfl

theorem sum_zero_iff_nonneg :
    ∀ codes : List Int, (∀ c ∈ codes, 0 ≤ c) →
      (codes.sum = 0 ↔ ∀ c ∈ codes, c = 0) := by
  intro codes
  induction codes with
  | nil => intro _; simp
  | cons c cs ih =>
    intro h
    have hc : 0 ≤ c := h c (List.mem_cons_self c cs)
    have hcs : ∀ x ∈ cs, 0 ≤ x := fun x hx => h x (List.mem_cons_of_mem c hx)
    have hs : 0 ≤ cs.sum := List.sum_nonneg hcs
    rw [List.sum_cons]
    constructor
    · intro h0
      intro x hx
      rcases List.mem_cons.mp hx with rfl | hx'
      · omega
      · exact (ih hcs).mp (by omega) x hx'
    · intro hall
      rw [hall c (List.mem_cons_self c cs),
        (ih hcs).mpr (fun x hx => hall x (List.mem_cons_of_mem c hx))]
      norm_num

/-- C1 (amended): when every spawn succeeds the engine's value — used as
the process exit status — is the arithmetic sum of the jobs' exit codes;
the claim's worked examples hold; and the "zero iff all zero" clause
holds for non-negative exit codes (normal process exits).  It fails when
a signal-killed child contributes a negative `returncode`, see the
counterexample. -/
theorem C1_aggregate_sum_amended :
    (∀ jobs : List (String × Option (List String × Int)),
      (∀ j ∈ jobs, j.2.isSome) →
      amain_result jobs = Except.ok (jobCodes jobs).sum) ∧
    amain_result [("a", some ([], 0)), ("b", some ([], 0)), ("c", some ([], 2))] =
      Except.ok 2 ∧
    amain_result [("a", some ([], 1)), ("b", some ([], 1))] = Except.ok 2 ∧
    (∀ codes : List Int, (∀ c ∈ codes, 0 ≤ c) →
      (codes.sum = 0 ↔ ∀ c ∈ codes, c = 0)) := by
  refine ⟨?_, by rfl, by rfl, sum_zero_iff_nonneg⟩
  intro jobs h
  unfold amain_result
  rw [gatherE_all_ok jobs h]

/-- C1 counterexample: a child killed by SIGHUP reports
`process.returncode = -1`; paired with a job exiting 1 the arithmetic sum
is 0 even though one job exited non-zero, refuting "the aggregate is zero
if and only if every job exited with code zero". -/
theorem C1_aggregate_zero_iff_cex :
    amain_result [("a", some ([], 1)), ("b", some ([], -1))] = Except.ok 0 ∧
    (run_playbook_result "a" (some ([], 1))).2 = Except.ok 1 ∧ (1 : Int) ≠ 0 := by
  exact ⟨by rfl, by rfl, by decide⟩

theorem C1_aggregate_sum_witness :
    amain_result [("a", some ([], 0)), ("b", some (["x\n"], 3))] =
      Except.ok (jobCodes [("a", some ([], 0)), ("b", some (["x\n"], 3))]).sum :=
  C1_aggregate_sum_amended.1 [("a", some ([], 0)), ("b", some (["x\n"], 3))] (by decide)

/-- C3: the default pool size is 5; every wrapper acquires exactly one
permit before `run_playbook` and releases it when `run_playbook` returns,
on success and failure alike; and in every reachable gate state at most
`K` jobs hold a permit, i.e. are between their START and DONE events. -/
theorem C3_concurrency_bound :
    defaultMaxPlaybooks = 5 ∧
    (∀ pb spawn,
      (playbook_wrapper_sem pb spawn).1 = [SemAction.acq pb, SemAction.rel pb]) ∧
    (∀ K s, GateReach K s → s.running.length ≤ K) := by
  refine ⟨rfl, fun pb spawn => rfl, fun K s h => ?_⟩
  have := gate_invariant K s h
  omega

theorem C3_concurrency_bound_witness :
    (GateState.mk 0 ["a"] []).running.length ≤ 1 :=
  C3_concurrency_bound.2.2 1 (GateState.mk 0 ["a"] [])
    (GateReach.step _ _ GateReach.init
      (GateStep.acquire "a" (GateState.mk 1 [] [])
        (List.not_mem_nil _) (List.not_mem_nil _) (by norm_num)))

theorem gatherE_append_error (xs : List (Except String Int)) (e : String)
    (ys : List (Except String Int))
    (h : ∀ x ∈ xs, ∃ v, x = Except.ok v) :
    gatherE (xs ++ Except.error e :: ys) = Except.error e := by
  induction xs with
  | nil => rfl
  | cons x xs ih =>
    rcases h x (List.mem_cons_self x xs) with ⟨v, rfl⟩
    show gatherE (Except.ok v :: (xs ++ Except.error e :: ys)) = Except.error e
    unfold gatherE
    rw [ih (fun x hx => h x (List.mem_cons_of_mem _ hx))]

/-- C8 (amended): when a job's spawn fails, its permit is still released
(the `async with` releases on the exception path) and `run_playbook`
propagates an error distinct from any exit code; but the exception then
propagates through `asyncio.gather` (default `return_exceptions=False`),
so the engine produces no aggregate: with the preceding jobs spawning
fine, the run's result is the spawn error, not a sum over the awaited
sibling jobs. -/
theorem C8_spawn_failure_amended :
    (∀ pb, (playbook_wrapper_sem pb none).1 = [SemAction.acq pb, SemAction.rel pb] ∧
      (playbook_wrapper_sem pb none).2 = Except.error "spawn failure") ∧
    (∀ (pre post : List (String × Option (List String × Int))) (pb : String),
      (∀ j ∈ pre, j.2.isSome) →
      amain_result (pre ++ (pb, none) :: post) = Except.error "spawn failure") := by
  refine ⟨fun pb => ⟨rfl, rfl⟩, ?_⟩
  intro pre post pb h
  unfold amain_result
  rw [List.map_append, List.map_cons]
  rw [show (playbook_wrapper_sem pb none).2 = Except.error "spawn failure" from rfl]
  rw [gatherE_append_error _ _ _ ?_]
  intro x hx
  rcases List.mem_map.mp hx with ⟨j, hj, rfl⟩
  have := h j hj
  rcases j with ⟨pb', spawn⟩
  rcases spawn with _ | ⟨lines, code⟩
  · exact absurd this (by simp)
  · exact ⟨code, rfl⟩

/-- C8 counterexample: with job `a` failing to spawn and job `b`
spawning fine, the engine's result is the propagated spawn exception —
the claimed per-job aggregation of the sibling (which alone yields
`Except.ok 0`) does not happen, so the siblings are not all awaited to an
aggregate. -/
theorem C8_spawn_failure_cex :
    amain_result [("a", none), ("b", some ([], 0))] = Except.error "spawn failure" ∧
    amain_result [("b", some ([], 0))] = Except.ok 0 := by
  exact ⟨by rfl, by rfl⟩

theorem C8_spawn_failure_amended_witness :
    amain_result ([("b", some ([], 0))] ++ ("a", none) :: []) =
      Except.error "spawn failure" :=
  C8_spawn_failure_amended.2 [("b", some ([], 0))] [] "a" (by decide)

/-- Run state of `show_progression` (source lines 131-135): `recaps` is
the insertion-ordered `defaultdict(list)`, `starts` and `ends` are plain
dicts keyed by playbook, `currently_running` is a Python list, `frameno`
counts processed events.  The `perf_counter()` timestamps are modelled by
the logical clock `frameno`; the claims only depend on key presence. -/
structure RState where
  recaps : List (String × List String)
  starts : List (String × Nat)
  ends : List (String × Nat)
  currently_running : List String
  frameno : Nat

def initRState : RState := RState.mk [] [] [] [] 0

/-- Python dict assignment `d[k] = v`: replace in place when the key
exists (insertion order preserved), else append. -/
def dictSet {α : Type} (d : List (String × α)) (k : String) (v : α) :
    List (String × α) :=
  if k ∈ d.map Prod.fst
  then d.map (fun p => if p.1 = k then (p.1, v) else p)
  else d ++ [(k, v)]

/-- Python `defaultdict(list)` mutation `d[k].append(msg)`. -/
def recapAppend (d : List (String × List String)) (k : String) (msg : String) :
    List (String × List String) :=
  if k ∈ d.map Prod.fst
  then d.map (fun p => if p.1 = k then (p.1, p.2 ++ [msg]) else p)
  else d ++ [(k, [msg])]

/-- Python dict lookup `d[k]`; `none` is a `KeyError`. -/
def dictGet {α : Type} (d : List (String × α)) (k : String) : Option α :=
  (d.find? (fun p => p.1 == k)).map Prod.snd

/-- Python `msg.split("\n")[0]`. -/
def firstLineStr (s : String) : String := String.mk (rawFirstLine s)

/-- One iteration of the consumer loop of `show_progression` (source
lines 142-178) on a real (non-sentinel) event.  `none` models an
uncaught exception: `playbooks.index(playbook)` raises `ValueError` when
the playbook is unknown (line 148), and `currently_running.remove`
raises when the playbook is not in the list (line 161); the frame counter
increments before either (line 146).  The second component is the lane
text written for the event, `none` when the event's branch writes no lane
text (cursor movement alone is not lane text). -/
def show_step (playbooks : List String) (columns longest_name : Int)
    (st : RState) (ev : Event) : Option (RState × Option String) :=
  let fr := st.frameno + 1
  if ev.2.1 ∈ playbooks then
    if ev.1 = "START" then
      some (RState.mk st.recaps (dictSet st.starts ev.2.1 fr) st.ends
        (st.currently_running ++ [ev.2.1]) fr, some "Started")
    else if ev.1 = "DONE" then
      if ev.2.1 ∈ st.currently_running then
        some (RState.mk st.recaps st.starts (dictSet st.ends ev.2.1 fr)
          (st.currently_running.erase ev.2.1) fr, some ev.2.2)
      else none
    else if ev.1 = "RECAP" then
      some (RState.mk (recapAppend st.recaps ev.2.1 ev.2.2) st.starts st.ends
        st.currently_running fr, none)
    else if ev.1 = "TASK" then
      some (RState.mk st.recaps st.starts st.ends st.currently_running fr,
        some (truncate (firstLineStr ev.2.2) (columns - longest_name - 4)))
    else if ev.1 = "ERROR" then
      some (RState.mk (recapAppend st.recaps ev.2.1 ev.2.2) st.starts st.ends
        st.currently_running fr, none)
    else
      some (RState.mk st.recaps st.starts st.ends st.currently_running fr, none)
  else none

/-- The consumer loop over the events received before the `None`
sentinel. -/
def show_run (playbooks : List String) (columns longest_name : Int) :
    List Event → RState → Option RState
  | [], st => some st
  | ev :: rest, st =>
    match show_step playbooks columns longest_name st ev with
    | none => none
    | some (st', _) => show_run playbooks columns longest_name rest st'

/-- C9: an OK, CHANGED or UNREACHABLE event matches none of the
renderer's branches: no lane text is written and `recaps`, `starts`,
`ends` and the running set are exactly unchanged (only the frame counter
advances).  Moreover, for arbitrary events: whenever `recaps` changes the
event was RECAP or ERROR, and whenever lane text is written the event was
START, TASK or DONE. -/
theorem C9_renderer_frame (playbooks : List String) (columns longest_name : Int)
    (st : RState) (k pb msg : String)
    (hk : k = "OK" ∨ k = "CHANGED" ∨ k = "UNREACHABLE")
    (hpb : pb ∈ playbooks) :
    show_step playbooks columns longest_name st (k, pb, msg) =
      some (RState.mk st.recaps st.starts st.ends st.currently_running
        (st.frameno + 1), none) ∧
    (∀ ev st' w, show_step playbooks columns longest_name st ev = some (st', w) →
      (st'.recaps ≠ st.recaps → ev.1 = "RECAP" ∨ ev.1 = "ERROR") ∧
      (w ≠ none → ev.1 = "START" ∨ ev.1 = "TASK" ∨ ev.1 = "DONE")) := by
  constructor
  · rcases hk with rfl | rfl | rfl <;> simp [show_step, hpb]
  · intro ev st' w h
    unfold show_step at h
    by_cases hin : ev.2.1 ∈ playbooks
    · rw [if_pos hin] at h
      split_ifs at h
      all_goals first
        | exact Option.noConfusion h
        | (obtain ⟨hA, hB⟩ := Prod.mk.inj (Option.some_inj.mp h)
           subst hA
           subst hB
           refine ⟨fun hne => ?_, fun hw => ?_⟩ <;>
             first
               | exact absurd rfl hne
               | exact absurd rfl hw
               | tauto)
    · rw [if_neg hin] at h
      exact Option.noConfusion h

theorem C9_renderer_frame_witness :
    show_step ["a"] 80 1 initRState ("OK", "a", "ok: [h]") =
      some (RState.mk initRState.recaps initRState.starts initRState.ends
        initRState.currently_running (initRState.frameno + 1), none) :=
  (C9_renderer_frame ["a"] 80 1 initRState "OK" "a" "ok: [h]"
    (Or.inl rfl) (by decide)).1

theorem keys_map_update {α : Type} (d : List (String × α))
    (f : String × α → String × α) (hf : ∀ p, (f p).1 = p.1) :
    (d.map f).map Prod.fst = d.map Prod.fst := by
  rw [List.map_map]
  exact List.map_congr_left (fun p _ => hf p)

theorem mem_keys_dictSet_self {α : Type} (d : List (String × α)) (k : String) (v : α) :
    k ∈ (dictSet d k v).map Prod.fst := by
  unfold dictSet
  by_cases hc : k ∈ d.map Prod.fst
  · rw [if_pos hc, keys_map_update]
    · exact hc
    · intro p
      by_cases hp : p.1 = k <;> simp [hp]
  · rw [if_neg hc, List.map_append]
    simp

theorem mem_keys_dictSet_mono {α : Type} (d : List (String × α)) (k pb : String)
    (v : α) (h : pb ∈ d.map Prod.fst) : pb ∈ (dictSet d k v).map Prod.fst := by
  unfold dictSet
  by_cases hc : k ∈ d.map Prod.fst
  · rw [if_pos hc, keys_map_update]
    · exact h
    · intro p
      by_cases hp : p.1 = k <;> simp [hp]
  · rw [if_neg hc, List.map_append]
    exact List.mem_append_left _ h

theorem keys_recapAppend_back (d : List (String × List String)) (k msg : String)
    (pb : String) (h : pb ∈ (recapAppend d k msg).map Prod.fst) :
    pb ∈ d.map Prod.fst ∨ pb = k := by
  unfold recapAppend at h
  by_cases hc : k ∈ d.map Prod.fst
  · rw [if_pos hc, keys_map_update] at h
    · exact Or.inl h
    · intro p
      by_cases hp : p.1 = k <;> simp [hp]
  · rw [if_neg hc, List.map_append] at h
    rcases List.mem_append.mp h with h1 | h1
    · exact Or.inl h1
    · right
      simpa using h1

theorem dictGet_isSome_of_mem {α : Type} (d : List (String × α)) (k : String)
    (h : k ∈ d.map Prod.fst) : (dictGet d k).isSome := by
  unfold dictGet
  rcases List.mem_map.mp h with ⟨p, hp, rfl⟩
  have hfind : (d.find? (fun q => q.1 == p.1)).isSome := by
    rw [List.find?_isSome]
    exact ⟨p, hp, by simp⟩
  rcases Option.isSome_iff_exists.mp hfind with ⟨q, hq⟩
  rw [hq]
  rfl

/-- How one renderer step moves the three mappings: `starts` and `ends`
keys only grow; a new `recaps` key can only come from a RECAP or ERROR
event naming it; a START (resp. DONE) step records its playbook in
`starts` (resp. `ends`). -/
theorem show_step_keys (playbooks : List String) (columns longest_name : Int)
    (st : RState) (ev : Event) (st' : RState) (w : Option String)
    (h : show_step playbooks columns longest_name st ev = some (st', w)) :
    (∀ pb, pb ∈ st.starts.map Prod.fst → pb ∈ st'.starts.map Prod.fst) ∧
    (∀ pb, pb ∈ st.ends.map Prod.fst → pb ∈ st'.ends.map Prod.fst) ∧
    (∀ pb, pb ∈ st'.recaps.map Prod.fst →
      pb ∈ st.recaps.map Prod.fst ∨
      (ev.2.1 = pb ∧ (ev.1 = "RECAP" ∨ ev.1 = "ERROR"))) ∧
    (ev.1 = "START" → ev.2.1 ∈ st'.starts.map Prod.fst) ∧
    (ev.1 = "DONE" → ev.2.1 ∈ st'.ends.map Prod.fst) := by
  unfold show_step at h
  by_cases hin : ev.2.1 ∈ playbooks
  swap
  · rw [if_neg hin] at h
    exact Option.noConfusion h
  rw [if_pos hin] at h
  by_cases hS : ev.1 = "START"
  · rw [if_pos hS] at h
    obtain ⟨hA, hB⟩ := Prod.mk.inj (Option.some_inj.mp h)
    subst hA
    refine ⟨fun pb hpb => mem_keys_dictSet_mono _ _ _ _ hpb, fun pb hpb => hpb,
      fun pb hpb => Or.inl hpb, fun _ => mem_keys_dictSet_self _ _ _, fun hk => ?_⟩
    rw [hS] at hk
    exact absurd hk (by decide)
  rw [if_neg hS] at h
  by_cases hD : ev.1 = "DONE"
  · rw [if_pos hD] at h
    by_cases hIn : ev.2.1 ∈ st.currently_running
    · rw [if_pos hIn] at h
      obtain ⟨hA, hB⟩ := Prod.mk.inj (Option.some_inj.mp h)
      subst hA
      refine ⟨fun pb hpb => hpb, fun pb hpb => mem_keys_dictSet_mono _ _ _ _ hpb,
        fun pb hpb => Or.inl hpb, fun hk => absurd hk hS,
        fun _ => mem_keys_dictSet_self _ _ _⟩
    · rw [if_neg hIn] at h
      exact Option.noConfusion h
  rw [if_neg hD] at h
  by_cases hR : ev.1 = "RECAP"
  · rw [if_pos hR] at h
    obtain ⟨hA, hB⟩ := Prod.mk.inj (Option.some_inj.mp h)
    subst hA
    refine ⟨fun pb hpb => hpb, fun pb hpb => hpb, fun pb hpb => ?_,
      fun hk => absurd hk hS, fun hk => absurd hk hD⟩
    rcases keys_recapAppend_back _ _ _ _ hpb with h' | h'
    · exact Or.inl h'
    · exact Or.inr ⟨h'.symm, Or.inl hR⟩
  rw [if_neg hR] at h
  by_cases hT : ev.1 = "TASK"
  · rw [if_pos hT] at h
    obtain ⟨hA, hB⟩ := Prod.mk.inj (Option.some_inj.mp h)
    subst hA
    exact ⟨fun pb hpb => hpb, fun pb hpb => hpb, fun pb hpb => Or.inl hpb,
      fun hk => absurd hk hS, fun hk => absurd hk hD⟩
  rw [if_neg hT] at h
  by_cases hE : ev.1 = "ERROR"
  · rw [if_pos hE] at h
    obtain ⟨hA, hB⟩ := Prod.mk.inj (Option.some_inj.mp h)
    subst hA
    refine ⟨fun pb hpb => hpb, fun pb hpb => hpb, fun pb hpb => ?_,
      fun hk => absurd hk hS, fun hk => absurd hk hD⟩
    rcases keys_recapAppend_back _ _ _ _ hpb with h' | h'
    · exact Or.inl h'
    · exact Or.inr ⟨h'.symm, Or.inr hE⟩
  rw [if_neg hE] at h
  obtain ⟨hA, hB⟩ := Prod.mk.inj (Option.some_inj.mp h)
  subst hA
  exact ⟨fun pb hpb => hpb, fun pb hpb => hpb, fun pb hpb => Or.inl hpb,
    fun hk => absurd hk hS, fun hk => absurd hk hD⟩

/-- Accumulated over a whole drained event list: `starts`/`ends` keys
grow, recap keys come from RECAP/ERROR events in the list, and a START
(resp. DONE) event anywhere in the list leaves its playbook in `starts`
(resp. `ends`) at the end. -/
theorem show_run_keys (playbooks : List String) (columns longest_name : Int) :
    ∀ (ws : List Event) (st final : RState),
      show_run playbooks columns longest_name ws st = some final →
      (∀ pb, pb ∈ st.starts.map Prod.fst → pb ∈ final.starts.map Prod.fst) ∧
      (∀ pb, pb ∈ st.ends.map Prod.fst → pb ∈ final.ends.map Prod.fst) ∧
      (∀ pb, pb ∈ final.recaps.map Prod.fst →
        pb ∈ st.recaps.map Prod.fst ∨
        ∃ e ∈ ws, e.2.1 = pb ∧ (e.1 = "RECAP" ∨ e.1 = "ERROR")) ∧
      (∀ pb, (∃ e ∈ ws, e.1 = "START" ∧ e.2.1 = pb) →
        pb ∈ final.starts.map Prod.fst) ∧
      (∀ pb, (∃ e ∈ ws, e.1 = "DONE" ∧ e.2.1 = pb) →
        pb ∈ final.ends.map Prod.fst) := by
  intro ws
  induction ws with
  | nil =>
    intro st final h
    have hf : st = final := Option.some_inj.mp h
    subst hf
    refine ⟨fun pb hpb => hpb, fun pb hpb => hpb, fun pb hpb => Or.inl hpb,
      fun pb hex => ?_, fun pb hex => ?_⟩ <;>
      · rcases hex with ⟨e, he, _⟩
        exact absurd he (List.not_mem_nil e)
  | cons ev rest ih =>
    intro st final h
    unfold show_run at h
    rcases hstep : show_step playbooks columns longest_name st ev with _ | ⟨st', w⟩
    · rw [hstep] at h
      exact Option.noConfusion h
    rw [hstep] at h
    obtain ⟨ihs, ihe, ihr, ihstart, ihdone⟩ := ih st' final h
    obtain ⟨ss, se, sr, sstart, sdone⟩ :=
      show_step_keys playbooks columns longest_name st ev st' w hstep
    refine ⟨fun pb hpb => ihs pb (ss pb hpb), fun pb hpb => ihe pb (se pb hpb),
      fun pb hpb => ?_, fun pb hex => ?_, fun pb hex => ?_⟩
    · rcases ihr pb hpb with h1 | ⟨e, he, htag, hkind⟩
      · rcases sr pb h1 with h2 | ⟨htag, hkind⟩
        · exact Or.inl h2
        · exact Or.inr ⟨ev, List.mem_cons_self _ _, htag, hkind⟩
      · exact Or.inr ⟨e, List.mem_cons_of_mem _ he, htag, hkind⟩
    · rcases hex with ⟨e, he, hk, htag⟩
      rcases List.mem_cons.mp he with rfl | he'
      · exact ihs pb (htag ▸ sstart hk)
      · exact ihstart pb ⟨e, he', hk, htag⟩
    · rcases hex with ⟨e, he, hk, htag⟩
      rcases List.mem_cons.mp he with rfl | he'
      · exact ihe pb (htag ▸ sdone hk)
      · exact ihdone pb ⟨e, he', hk, htag⟩

theorem streams_tags_of_events (streams : String → List Event)
    (hstreams : ∀ j, streams j = [] ∨
      ∃ lines code, streams j = run_playbook_events j lines code) :
    ∀ j e, e ∈ streams j → e.2.1 = j := by
  intro j e he
  rcases hstreams j with h | ⟨lines, code, h⟩
  · rw [h] at he
    exact absurd he (List.not_mem_nil e)
  · rw [h] at he
    exact run_playbook_events_tags j lines code e he

theorem start_mem_run_playbook_events (pb : String) (lines : List String)
    (code : Int) : ("START", pb, "") ∈ run_playbook_events pb lines code :=
  List.mem_cons_self _ _

theorem done_mem_run_playbook_events (pb : String) (lines : List String)
    (code : Int) : ("DONE", pb, donePayload code) ∈ run_playbook_events pb lines code := by
  unfold run_playbook_events
  exact List.mem_cons_of_mem _ (List.mem_append_right _ (List.mem_singleton.mpr rfl))

/-- C10: in a run where every job's process spawns successfully (every
non-empty stream is a complete `run_playbook_events` sequence, as put on
the queue before the `None` sentinel, which `amain` enqueues only after
`gather` has awaited every job task) and the renderer drains the whole
interleaving to `final`, every playbook with an accumulated recap/error
entry also has `starts` and `ends` entries, so the final report's
`ends[playbook] - starts[playbook]` lookups cannot raise `KeyError`. -/
theorem C10_report_keys
    (streams : String → List Event) (ws : List Event)
    (playbooks : List String) (columns longest_name : Int) (final : RState)
    (hm : Merge streams ws)
    (hstreams : ∀ j, streams j = [] ∨
      ∃ lines code, streams j = run_playbook_events j lines code)
    (hrun : show_run playbooks columns longest_name ws initRState = some final) :
    ∀ pb, pb ∈ final.recaps.map Prod.fst →
      pb ∈ final.starts.map Prod.fst ∧ pb ∈ final.ends.map Prod.fst ∧
      (dictGet final.starts pb).isSome ∧ (dictGet final.ends pb).isSome := by
  intro pb hpb
  obtain ⟨_, _, ihr, ihstart, ihdone⟩ :=
    show_run_keys playbooks columns longest_name ws initRState final hrun
  have htags := streams_tags_of_events streams hstreams
  rcases ihr pb hpb with h0 | ⟨e, hews, hepb, hkind⟩
  · exact absurd h0 (List.not_mem_nil pb)
  · have hes : e ∈ streams pb := by
      have := merge_mem_rev streams ws hm htags e hews
      rwa [hepb] at this
    rcases hstreams pb with hnil | ⟨lines, code, hst⟩
    · rw [hnil] at hes
      exact absurd hes (List.not_mem_nil e)
    · have hstart : ("START", pb, "") ∈ ws := by
        refine merge_mem streams ws hm pb _ ?_
        rw [hst]
        exact start_mem_run_playbook_events pb lines code
      have hdone : ("DONE", pb, donePayload code) ∈ ws := by
        refine merge_mem streams ws hm pb _ ?_
        rw [hst]
        exact done_mem_run_playbook_events pb lines code
      have h1 : pb ∈ final.starts.map Prod.fst := ihstart pb ⟨_, hstart, rfl, rfl⟩
      have h2 : pb ∈ final.ends.map Prod.fst := ihdone pb ⟨_, hdone, rfl, rfl⟩
      exact ⟨h1, h2, dictGet_isSome_of_mem _ _ h1, dictGet_isSome_of_mem _ _ h2⟩

/-- A concrete single-job stream for the C10 witness: one chunk that
classifies as RECAP, exit code 0. -/
def c10lines : List String := ["PLAY RECAP *\n", "ok x\n", "\n"]

def c10streams : String → List Event := fun j =>
  if j = "a" then run_playbook_events "a" c10lines 0 else []

def c10ws : List Event :=
  [("START", "a", ""), ("RECAP", "a", "PLAY RECAP *\nok x\n\n"), ("DONE", "a", "Done.")]

theorem c10merge : Merge c10streams c10ws := by
  refine Merge.cons _ "a" ("START", "a", "")
    [("RECAP", "a", "PLAY RECAP *\nok x\n\n"), ("DONE", "a", "Done.")] _ (by decide) ?_
  refine Merge.cons _ "a" ("RECAP", "a", "PLAY RECAP *\nok x\n\n")
    [("DONE", "a", "Done.")] _ (by decide) ?_
  refine Merge.cons _ "a" ("DONE", "a", "Done.") [] _ (by decide) ?_
  refine Merge.nil _ ?_
  intro j
  by_cases hj : j = "a" <;> simp [updStreams, c10streams, hj]

theorem c10streams_spec : ∀ j, c10streams j = [] ∨
    ∃ lines code, c10streams j = run_playbook_events j lines code := by
  intro j
  by_cases hj : j = "a"
  · subst hj
    exact Or.inr ⟨c10lines, 0, rfl⟩
  · left
    simp [c10streams, hj]

def c10final : RState :=
  (show_run ["a"] 80 1 c10ws initRState).getD initRState

theorem C10_report_keys_witness :
    "a" ∈ c10final.recaps.map Prod.fst ∧
    (dictGet c10final.starts "a").isSome ∧ (dictGet c10final.ends "a").isSome :=
  ⟨by decide,
    (C10_report_keys c10streams c10ws ["a"] 80 1 c10final c10merge c10streams_spec
      (by rfl) "a" (by decide)).2.2.1,
    (C10_report_keys c10streams c10ws ["a"] 80 1 c10final c10merge c10streams_spec
      (by rfl) "a" (by decide)).2.2.2⟩
